import Mathlib

/-!
Shallow embedding of `working/implementation/core/learning_tracker.py`
(PAIRED learning tracker core): the event data model, pattern signature
indexing, insight generation, pattern analysis, recommendation lookup,
and local/global sync.  Python floats (confidence, success rates,
thresholds) are modelled as exact rationals; Python dictionaries are
modelled as association lists in insertion order; ISO-8601 timestamps are
modelled as integers (they compare consistently with chronological
order); the SHA-256 based content hash is abstracted as an arbitrary
function `h : String → String` passed to the operations that hash.
A Python `ZeroDivisionError` escaping a function is modelled by an
`Option` result being `none`.
-/

namespace PairedLearning

/-- Model of the `LearningEntry` dataclass: a single recorded learning
event.  `context` is an association list standing for the Python dict
(insertion-ordered, string-valued after `str()` coercion). -/
structure LearningEntry where
  timestamp : Int
  agent : String
  project : String
  patternType : String
  context : List (String × String)
  outcome : String
  confidence : ℚ
  tags : List String
  hashId : String
deriving DecidableEq

/-- Model of the `PatternInsight` dataclass produced by
`_generate_pattern_insight`. -/
structure PatternInsight where
  patternId : String
  patternType : String
  frequency : Nat
  successRate : ℚ
  contexts : List (List (String × String))
  agents : List String
  projects : List String
  recommendations : List String
  lastSeen : Int
deriving DecidableEq

/-- Model of the global-insight dictionaries built by
`_analyze_global_patterns`: `{'frequency': ..., 'projects': ...,
'success_rate': ...}`. -/
structure GlobalInsight where
  frequency : Nat
  projects : List String
  successRate : ℚ
deriving DecidableEq

/-- Model of the dictionary returned by `sync_with_global`. -/
structure SyncResult where
  uploaded : Nat
  downloaded : Nat
  totalGlobal : Nat
  totalLocal : Nat
deriving DecidableEq

/-! ### String helpers (Python `str.lower`, substring test, `sorted`) -/

/-- Python `str.lower()` (character-wise lowercasing). -/
def lowerStr (s : String) : String :=
  String.mk (s.data.map Char.toLower)

/-- Check whether `needle` occurs at the head of `hay`; used to model the
Python substring operator `in`. -/
def startsWithChars : List Char → List Char → Bool
  | [], _ => true
  | _ :: _, [] => false
  | a :: as, b :: bs => a == b && startsWithChars as bs

/-- Python's substring operator `needle in hay` on character lists. -/
def hasSubstr (needle : List Char) : List Char → Bool
  | [] => needle.isEmpty
  | c :: rest => startsWithChars needle (c :: rest) || hasSubstr needle rest

/-- Code-point lexicographic comparison of character lists, the order
Python's `sorted` uses on strings. -/
def strLeChars : List Char → List Char → Bool
  | [], _ => true
  | _ :: _, [] => false
  | a :: as, b :: bs =>
      if a.val < b.val then true
      else if b.val < a.val then false
      else strLeChars as bs

/-- Python `sorted` on a list of strings: a stable sort by code-point
lexicographic order. -/
def sortedStrings (l : List String) : List String :=
  List.insertionSort (fun a b => strLeChars a.data b.data = true) l

/-! ### Content hash (`record_learning`) -/

/-- Model of Python `str(context)` for the context dict: a deterministic
serialization of the insertion-ordered key/value pairs. -/
def contextStr (context : List (String × String)) : String :=
  String.intercalate ", " (context.map (fun kv => kv.1 ++ ": " ++ kv.2))

/-- The string hashed by `record_learning`:
`f"{timestamp}{agent}{pattern_type}{str(context)}{outcome}"`.  Note that
`project`, `confidence` and `tags` do not take part. -/
def hashContent (timestamp : Int) (agent patternType : String)
    (context : List (String × String)) (outcome : String) : String :=
  toString timestamp ++ agent ++ patternType ++ contextStr context ++ outcome

/-- Model of `record_learning`: build the `LearningEntry` that the method
appends to the store.  `h` abstracts `sha256(...).hexdigest()[:16]`. -/
def recordLearning (h : String → String) (timestamp : Int) (projectName : String)
    (agent patternType : String) (context : List (String × String)) (outcome : String)
    (confidence : ℚ) (tags : List String) : LearningEntry :=
  { timestamp := timestamp
    agent := agent
    project := projectName
    patternType := patternType
    context := context
    outcome := outcome
    confidence := confidence
    tags := tags
    hashId := h (hashContent timestamp agent patternType context outcome) }

/-! ### Signature indexing (`_create_pattern_signature`) -/

/-- Model of `_create_pattern_signature`:
`'_'.join(sorted(entry['context'].keys())[:3])` appended to the pattern
type with an underscore. -/
def createPatternSignature (e : LearningEntry) : String :=
  let contextKeys := sortedStrings (e.context.map Prod.fst)
  let contextSignature := String.intercalate "_" (contextKeys.take 3)
  e.patternType ++ "_" ++ contextSignature

/-- Append an entry to the group keyed `sig`, creating the group at the
end if absent — the behaviour of `defaultdict(list)` indexing, which
preserves first-occurrence key order. -/
def insertGrouped (sig : String) (e : LearningEntry) :
    List (String × List LearningEntry) → List (String × List LearningEntry)
  | [] => [(sig, [e])]
  | (s, es) :: rest =>
      if s = sig then (s, es ++ [e]) :: rest
      else (s, es) :: insertGrouped sig e rest

/-- Group a list of entries by a string key, preserving dict insertion
order of keys and list order within each group. -/
def groupByKey (key : LearningEntry → String) (l : List LearningEntry) :
    List (String × List LearningEntry) :=
  l.foldl (fun acc e => insertGrouped (key e) e acc) []

/-! ### Insight generation (`_generate_pattern_insight`) -/

/-- Classification of a successful event used by
`_generate_pattern_insight`:
`'success' in e['outcome'].lower() or e['confidence'] > 0.7`. -/
def isSuccessful (e : LearningEntry) : Bool :=
  hasSubstr "success".data (lowerStr e.outcome).data || decide ((7 : ℚ)/10 < e.confidence)

/-- Order-preserving deduplication keeping the first occurrence of each
element (Python `list(dict.fromkeys(...))`; also used to model
`list(set(...))`, whose order the claims never rely on). -/
def dedupFirstAux {α : Type} [DecidableEq α] (seen : List α) : List α → List α
  | [] => []
  | x :: xs =>
      if x ∈ seen then dedupFirstAux seen xs
      else x :: dedupFirstAux (x :: seen) xs

/-- Deduplicate keeping first occurrences. -/
def dedupFirst {α : Type} [DecidableEq α] (l : List α) : List α :=
  dedupFirstAux [] l

/-- Fixed recommendation strings triggered by keywords of a successful
outcome, in the textual order of `_extract_recommendations`. -/
def recForOutcome (outcome : String) : List String :=
  (if hasSubstr "refactor".data (lowerStr outcome).data then
    ["Consider refactoring similar code patterns"] else []) ++
  (if hasSubstr "test".data (lowerStr outcome).data then
    ["Add comprehensive tests for this pattern"] else []) ++
  (if hasSubstr "performance".data (lowerStr outcome).data then
    ["Monitor performance impact of similar changes"] else []) ++
  (if hasSubstr "documentation".data (lowerStr outcome).data then
    ["Document this pattern for future reference"] else [])

/-- Model of `_extract_recommendations`: scan the successful entries and
collapse duplicates (`list(set(...))`). -/
def extractRecommendations (successfulEntries : List LearningEntry) : List String :=
  dedupFirst (successfulEntries.flatMap (fun e => recForOutcome e.outcome))

/-- Model of `_generate_pattern_insight`.  `h` abstracts
`sha256(signature).hexdigest()[:12]`; `signature.split('_')[0]` is the
prefix of the signature before its first underscore. -/
def generatePatternInsight (h : String → String) (signature : String)
    (entries : List LearningEntry) : PatternInsight :=
  let frequency := entries.length
  let successfulOutcomes := entries.filter isSuccessful
  let successRate : ℚ :=
    if 0 < frequency then (successfulOutcomes.length : ℚ) / (frequency : ℚ) else 0
  { patternId := h signature
    patternType := String.mk (signature.data.takeWhile (· ≠ '_'))
    frequency := frequency
    successRate := successRate
    contexts := entries.map (·.context)
    agents := dedupFirst (entries.map (·.agent))
    projects := dedupFirst (entries.map (·.project))
    recommendations := extractRecommendations successfulOutcomes
    lastSeen := (entries.map (·.timestamp)).max?.getD 0 }

/-! ### Pattern analysis (`analyze_patterns`) -/

/-- `self.min_pattern_frequency`. -/
def minPatternFrequency : Nat := 3

/-- `self.min_confidence_threshold`. -/
def minConfidenceThreshold : ℚ := 7/10

/-- Descending order on the Python sort key
`(x.frequency, x.success_rate)` with `reverse=True`: `a` precedes `b`
when `a`'s key is lexicographically at least `b`'s. -/
def insGE (a b : PatternInsight) : Prop :=
  b.frequency < a.frequency ∨ (b.frequency = a.frequency ∧ b.successRate ≤ a.successRate)

instance : DecidableRel insGE := fun a b =>
  inferInstanceAs (Decidable (b.frequency < a.frequency ∨
    (b.frequency = a.frequency ∧ b.successRate ≤ a.successRate)))

/-- Time-window plus optional agent/pattern-type filtering of the event
log, as in the opening of `analyze_patterns`. -/
def filteredEvents (now : Int) (db : List LearningEntry)
    (agent patternType : Option String) (daysBack : Int) : List LearningEntry :=
  let cutoff := now - daysBack
  let byDate := db.filter (fun e => decide (cutoff ≤ e.timestamp))
  let byAgent := match agent with
    | some a => byDate.filter (fun e => e.agent == a)
    | none => byDate
  match patternType with
  | some p => byAgent.filter (fun e => e.patternType == p)
  | none => byAgent

/-- Insights of buckets that clear both thresholds, in grouping order, as
built by the loop of `analyze_patterns` before sorting. -/
def qualifyingInsights (h : String → String) (now : Int) (db : List LearningEntry)
    (agent patternType : Option String) (daysBack : Int) : List PatternInsight :=
  (groupByKey createPatternSignature (filteredEvents now db agent patternType daysBack)).filterMap
    (fun g =>
      if minPatternFrequency ≤ g.2.length then
        if minConfidenceThreshold ≤ (generatePatternInsight h g.1 g.2).successRate then
          some (generatePatternInsight h g.1 g.2)
        else none
      else none)

/-- Model of `analyze_patterns`: filter, group, score, threshold, then
stable-sort descending by `(frequency, success_rate)`.  (Python's sort is
a stable sort; any stable sort algorithm under the same total preorder
returns the same list, so insertion sort is a faithful model.) -/
def analyzePatterns (h : String → String) (now : Int) (db : List LearningEntry)
    (agent patternType : Option String) (daysBack : Int) : List PatternInsight :=
  List.insertionSort insGE (qualifyingInsights h now db agent patternType daysBack)

/-! ### Recommendation lookup (`get_recommendations`, `_context_matches_pattern`) -/

/-- Number of keys of a stored pattern context whose value matches the
query context case-insensitively — the `matches` counter of
`_context_matches_pattern`. -/
def matchCount (context patternContext : List (String × String)) : Nat :=
  (patternContext.filter (fun kv =>
    match context.lookup kv.1 with
    | some v => lowerStr v == lowerStr kv.2
    | none => false)).length

/-- Model of `_context_matches_pattern`.  The function divides by
`len(pattern_context)` with no guard, so a pattern context with zero keys
raises `ZeroDivisionError`, modelled as `none`. -/
def contextMatchesPattern (context : List (String × String)) :
    List (List (String × String)) → Option Bool
  | [] => some false
  | pc :: rest =>
      let totalKeys := pc.length
      let matched := matchCount context pc
      if totalKeys = 0 then none
      else if (matched : ℚ) / (totalKeys : ℚ) ≥ 3/5 then some true
      else contextMatchesPattern context rest

/-- The loop of `get_recommendations` that extends `recommendations` with
each matching insight's list, in ranked order; `none` propagates a
`ZeroDivisionError` from the match check. -/
def collectRecommendations (context : List (String × String)) :
    List PatternInsight → Option (List String)
  | [] => some []
  | i :: rest =>
      match contextMatchesPattern context i.contexts with
      | none => none
      | some true => (collectRecommendations context rest).map (fun rs => i.recommendations ++ rs)
      | some false => collectRecommendations context rest

/-- Model of `get_recommendations`:
`list(dict.fromkeys(recommendations))[:5]` over the matching insights of
`analyze_patterns(agent=agent)` (which uses the default 30-day window). -/
def getRecommendations (h : String → String) (now : Int) (db : List LearningEntry)
    (agent : String) (context : List (String × String)) : Option (List String) :=
  (collectRecommendations context (analyzePatterns h now db (some agent) none 30)).map
    (fun recs => (dedupFirst recs).take 5)

/-- Follows the spec's words for §4.5 (not the code): the concatenation,
in ranked order, of the recommendation lists of exactly those insights
one of whose stored contexts matches the query context. -/
def specMatchedRecommendations (context : List (String × String))
    (insights : List PatternInsight) : List String :=
  ((insights.filter (fun i => contextMatchesPattern context i.contexts == some true)).map
    (·.recommendations)).flatten

/-! ### Sync (`sync_with_global`) -/

/-- `new_entries`: local events whose hash is absent from the global
store. -/
def newEntriesOf (projectData globalData : List LearningEntry) : List LearningEntry :=
  projectData.filter (fun e => !((globalData.map (·.hashId)).contains e.hashId))

/-- The global store after `global_data.extend(new_entries)`. -/
def mergedGlobal (projectData globalData : List LearningEntry) : List LearningEntry :=
  globalData ++ newEntriesOf projectData globalData

/-- Model of `_analyze_global_patterns`: group the global log by
`f"{pattern_type}_{agent}"` and keep groups of at least 5 events. -/
def analyzeGlobalPatterns (globalData : List LearningEntry) :
    List (String × GlobalInsight) :=
  (groupByKey (fun e => e.patternType ++ "_" ++ e.agent) globalData).filterMap
    (fun g =>
      if 5 ≤ g.2.length then
        some (g.1,
          { frequency := g.2.length
            projects := dedupFirst (g.2.map (·.project))
            successRate :=
              ((g.2.filter (fun e => decide ((7 : ℚ)/10 < e.confidence))).length : ℚ) /
                (g.2.length : ℚ) })
      else none)

/-- Model of `_is_insight_relevant`:
`insight.get('success_rate', 0) > 0.8 and len(insight.get('projects', [])) > 2`. -/
def isInsightRelevant (i : GlobalInsight) : Bool :=
  decide ((4 : ℚ)/5 < i.successRate) && decide (2 < i.projects.length)

/-- The global insights that pass the relevance check during sync. -/
def relevantGlobalInsights (projectData globalData : List LearningEntry) :
    List (String × GlobalInsight) :=
  (analyzeGlobalPatterns (mergedGlobal projectData globalData)).filter
    (fun kv => isInsightRelevant kv.2)

/-- Python dict assignment `project_insights[insight_id] = insight`:
overwrite an existing key in place, else append. -/
def updateIndex (idx : List (String × GlobalInsight)) (kv : String × GlobalInsight) :
    List (String × GlobalInsight) :=
  if idx.any (fun p => p.1 == kv.1) then
    idx.map (fun p => if p.1 == kv.1 then kv else p)
  else idx ++ [kv]

/-- Model of `sync_with_global`: returns the extended global store, the
updated local insight index, and the summary counts dictionary. -/
def syncWithGlobal (projectData globalData : List LearningEntry)
    (projectInsights : List (String × GlobalInsight)) :
    List LearningEntry × List (String × GlobalInsight) × SyncResult :=
  let newEntries := newEntriesOf projectData globalData
  let globalAfter := mergedGlobal projectData globalData
  let relevant := relevantGlobalInsights projectData globalData
  (globalAfter,
   relevant.foldl updateIndex projectInsights,
   { uploaded := newEntries.length
     downloaded := relevant.length
     totalGlobal := globalAfter.length
     totalLocal := projectData.length })

/-! ### Helper lemmas -/

theorem startsWithChars_iff (n : List Char) :
    ∀ l : List Char, startsWithChars n l = true ↔ ∃ q, l = n ++ q := by
  induction n with
  | nil =>
    intro l
    simp [startsWithChars]
  | cons a as ih =>
    intro l
    cases l with
    | nil =>
      simp [startsWithChars]
    | cons b bs =>
      simp only [startsWithChars, Bool.and_eq_true, beq_iff_eq, ih bs]
      constructor
      · rintro ⟨rfl, q, rfl⟩
        exact ⟨q, rfl⟩
      · rintro ⟨q, hq⟩
        rw [List.cons_append] at hq
        obtain ⟨h1, h2⟩ := List.cons.injEq .. ▸ hq
        exact ⟨h1.symm, q, h2⟩

theorem hasSubstr_iff (n : List Char) :
    ∀ l : List Char, hasSubstr n l = true ↔ ∃ p q, l = p ++ n ++ q := by
  intro l
  induction l with
  | nil =>
    simp only [hasSubstr, List.isEmpty_iff]
    constructor
    · rintro rfl
      exact ⟨[], [], rfl⟩
    · rintro ⟨p, q, hpq⟩
      rcases List.append_eq_nil.mp hpq.symm with ⟨h1, -⟩
      exact (List.append_eq_nil.mp h1).2
  | cons c cs ih =>
    simp only [hasSubstr, Bool.or_eq_true, startsWithChars_iff, ih]
    constructor
    · rintro (⟨q, hq⟩ | ⟨p, q, hpq⟩)
      · exact ⟨[], q, by simpa using hq⟩
      · exact ⟨c :: p, q, by simp [hpq]⟩
    · rintro ⟨p, q, hpq⟩
      cases p with
      | nil =>
        exact Or.inl ⟨q, by simpa using hpq⟩
      | cons x xs =>
        rw [List.cons_append, List.cons_append] at hpq
        obtain ⟨-, h2⟩ := List.cons.injEq .. ▸ hpq
        exact Or.inr ⟨xs, q, h2⟩

theorem dedupFirstAux_nodup {α : Type} [DecidableEq α] :
    ∀ (l seen : List α),
      (dedupFirstAux seen l).Nodup ∧ ∀ x ∈ dedupFirstAux seen l, x ∉ seen := by
  intro l
  induction l with
  | nil =>
    intro seen
    simp [dedupFirstAux]
  | cons x xs ih =>
    intro seen
    by_cases hx : x ∈ seen
    · simpa [dedupFirstAux, hx] using ih seen
    · obtain ⟨hnd, hmem⟩ := ih (x :: seen)
      refine ⟨?_, ?_⟩
      · simp only [dedupFirstAux, if_neg hx, List.nodup_cons]
        exact ⟨fun hc => (hmem x hc) (List.mem_cons_self x seen), hnd⟩
      · intro y hy
        simp only [dedupFirstAux, if_neg hx, List.mem_cons] at hy
        rcases hy with rfl | hy
        · exact hx
        · exact fun hc => (hmem y hy) (List.mem_cons_of_mem x hc)

theorem dedupFirst_nodup {α : Type} [DecidableEq α] (l : List α) :
    (dedupFirst l).Nodup :=
  (dedupFirstAux_nodup l []).1

theorem takeWhile_append_stop {p : Char → Bool} {c : Char} (hc : p c = false) :
    ∀ (l₁ l₂ : List Char), (l₁ ++ c :: l₂).takeWhile p = l₁.takeWhile p := by
  intro l₁ l₂
  induction l₁ with
  | nil =>
    simp [List.takeWhile_cons, hc]
  | cons a l ih =>
    cases hpa : p a <;> simp [List.takeWhile_cons, hpa, ih]

instance : IsTotal PatternInsight insGE := by
  constructor
  intro a b
  unfold insGE
  rcases lt_trichotomy a.frequency b.frequency with h | h | h
  · exact Or.inr (Or.inl h)
  · rcases le_total b.successRate a.successRate with hr | hr
    · exact Or.inl (Or.inr ⟨h.symm, hr⟩)
    · exact Or.inr (Or.inr ⟨h, hr⟩)
  · exact Or.inl (Or.inl h)

instance : IsTrans PatternInsight insGE := by
  constructor
  intro a b c hab hbc
  unfold insGE at hab hbc ⊢
  rcases hab with h1 | ⟨h1e, h1r⟩ <;> rcases hbc with h2 | ⟨h2e, h2r⟩
  · exact Or.inl (h2.trans h1)
  · exact Or.inl (by rw [h2e]; exact h1)
  · exact Or.inl (by rw [← h1e]; exact h2)
  · exact Or.inr ⟨h2e.trans h1e, h2r.trans h1r⟩

theorem contains_hashId_iff (g : List LearningEntry) (s : String) :
    ((g.map (·.hashId)).contains s) = true ↔ s ∈ g.map (·.hashId) := by
  simp

/-! ### Claim C1 -/

/-- Claim C1: the claim says `_context_matches_pattern` treats a pattern
context with zero keys as a match failure and never divides by zero, so
that a pattern-contexts list containing an empty mapping returns
normally.  The code computes `matches / total_keys` with no guard, so an
empty pattern context raises `ZeroDivisionError` (modelled as `none`):
for every query context, the call with `[{}]` does not return normally.
This contradicts the claim, establishing the code bug. -/
theorem contextMatchesPattern_empty_pattern_raises :
    ∀ context : List (String × String), contextMatchesPattern context [[]] = none :=
  fun _ => rfl

/-! ### Claim C9 -/

/-- Claim C9: the content hash id computed by `record_learning` is a
deterministic function of exactly (timestamp, agent, category, context,
outcome): two calls agreeing on those five fields get the same id even
when project, confidence or tags differ, and the id is the hash of the
content string built from those five fields alone. -/
theorem recordLearning_hash_five_fields :
    ∀ (h : String → String) (ts : Int) (proj₁ proj₂ agent patternType : String)
      (context : List (String × String)) (outcome : String) (conf₁ conf₂ : ℚ)
      (tags₁ tags₂ : List String),
      (recordLearning h ts proj₁ agent patternType context outcome conf₁ tags₁).hashId =
        (recordLearning h ts proj₂ agent patternType context outcome conf₂ tags₂).hashId ∧
      (recordLearning h ts proj₁ agent patternType context outcome conf₁ tags₁).hashId =
        h (hashContent ts agent patternType context outcome) :=
  fun _ _ _ _ _ _ _ _ _ _ _ _ => ⟨rfl, rfl⟩

/-! ### Claim C3 -/

/-- Claim C3: `_generate_pattern_insight` counts an event as successful iff its
lowercased outcome text contains the substring `success` or its
confidence is strictly greater than 0.7 (either condition alone
qualifies), and the success rate of a non-empty bucket is the number of
successful events divided by the bucket size. -/
theorem generatePatternInsight_success_classification :
    (∀ e : LearningEntry, isSuccessful e = true ↔
      ((∃ p q, (lowerStr e.outcome).data = p ++ "success".data ++ q) ∨
        (7 : ℚ)/10 < e.confidence)) ∧
    (∀ (h : String → String) (sig : String) (entries : List LearningEntry),
      entries ≠ [] →
      (generatePatternInsight h sig entries).successRate =
        (entries.countP isSuccessful : ℚ) / (entries.length : ℚ)) := by
  constructor
  · intro e
    simp [isSuccessful, hasSubstr_iff]
  · intro h sig entries hne
    have hpos : 0 < entries.length := List.length_pos.mpr hne
    show (if 0 < entries.length then
      ((entries.filter isSuccessful).length : ℚ) / (entries.length : ℚ) else 0) = _
    rw [if_pos hpos, List.countP_eq_length_filter]

/-- Concrete event for the C3 witness. -/
def egC3 : LearningEntry :=
  { timestamp := 0, agent := "sherlock", project := "demo", patternType := "bug_fix"
    context := [], outcome := "Successfully fixed the issue", confidence := 0
    tags := [], hashId := "x" }

/-- Witness for C3 at a concrete one-event bucket whose outcome contains
the success marker. -/
theorem generatePatternInsight_success_classification_witness :
    isSuccessful egC3 = true ∧
    (generatePatternInsight id "bug_fix_" [egC3]).successRate =
      (List.countP isSuccessful [egC3] : ℚ) / (([egC3] : List LearningEntry).length : ℚ) :=
  ⟨rfl,
    generatePatternInsight_success_classification.2 id "bug_fix_" [egC3] (by simp)⟩

/-! ### Claim C7 -/

/-- Claim C7: for a non-empty stored pattern context the match decision sits
exactly at the 0.6 boundary — a matched-key fraction of exactly 3/5 is
accepted and any fraction strictly below 3/5 is rejected. -/
theorem contextMatchesPattern_boundary :
    ∀ (context pc : List (String × String)), pc ≠ [] →
      ((matchCount context pc : ℚ) / (pc.length : ℚ) = 3/5 →
        contextMatchesPattern context [pc] = some true) ∧
      ((matchCount context pc : ℚ) / (pc.length : ℚ) < 3/5 →
        contextMatchesPattern context [pc] = some false) := by
  intro context pc hne
  have hlen : ¬ pc.length = 0 := by
    simpa [List.length_eq_zero] using hne
  constructor
  · intro heq
    show (if pc.length = 0 then none
      else if (matchCount context pc : ℚ) / (pc.length : ℚ) ≥ 3/5 then some true
      else contextMatchesPattern context []) = some true
    rw [if_neg hlen, if_pos (ge_of_eq heq)]
  · intro hlt
    show (if pc.length = 0 then none
      else if (matchCount context pc : ℚ) / (pc.length : ℚ) ≥ 3/5 then some true
      else contextMatchesPattern context []) = some false
    rw [if_neg hlen, if_neg (not_le.mpr hlt)]
    rfl

/-- Concrete query context for the C7 witness: matches exactly 3 of the
5 stored keys (case-insensitively). -/
def ctxC7 : List (String × String) :=
  [("a", "1"), ("b", "2"), ("c", "3"), ("d", "9")]

/-- Concrete stored pattern context with 5 keys for the C7 witness. -/
def pcC7 : List (String × String) :=
  [("a", "1"), ("b", "2"), ("c", "3"), ("d", "4"), ("e", "5")]

/-- Witness for C7: a query matching exactly 60% of 5 stored keys is
accepted. -/
theorem contextMatchesPattern_boundary_witness :
    contextMatchesPattern ctxC7 [pcC7] = some true := by
  apply (contextMatchesPattern_boundary ctxC7 pcC7 (by simp [pcC7])).1
  have hm : matchCount ctxC7 pcC7 = 3 := rfl
  have hl : pcC7.length = 5 := rfl
  rw [hm, hl]
  norm_num

/-! ### Claim C8 -/

/-- Claim C8: for a non-empty bucket of events, the generated insight satisfies
`0 ≤ success_rate ≤ 1`, and its frequency equals both the bucket size and
the length of its contexts list. -/
theorem generatePatternInsight_invariants :
    ∀ (h : String → String) (sig : String) (entries : List LearningEntry),
      entries ≠ [] →
      0 ≤ (generatePatternInsight h sig entries).successRate ∧
      (generatePatternInsight h sig entries).successRate ≤ 1 ∧
      (generatePatternInsight h sig entries).frequency = entries.length ∧
      (generatePatternInsight h sig entries).frequency =
        (generatePatternInsight h sig entries).contexts.length := by
  intro h sig entries hne
  have hpos : 0 < entries.length := List.length_pos.mpr hne
  have hposq : (0 : ℚ) < (entries.length : ℚ) := by exact_mod_cast hpos
  have hrate : (generatePatternInsight h sig entries).successRate =
      ((entries.filter isSuccessful).length : ℚ) / (entries.length : ℚ) := by
    show (if 0 < entries.length then
      ((entries.filter isSuccessful).length : ℚ) / (entries.length : ℚ) else 0) = _
    rw [if_pos hpos]
  refine ⟨?_, ?_, rfl, ?_⟩
  · rw [hrate]
    exact div_nonneg (Nat.cast_nonneg _) (Nat.cast_nonneg _)
  · rw [hrate]
    exact (div_le_one hposq).mpr
      (by exact_mod_cast List.length_filter_le isSuccessful entries)
  · show entries.length = (entries.map (·.context)).length
    rw [List.length_map]

/-- Concrete event for the C8 witness. -/
def egC8 : LearningEntry :=
  { timestamp := 5, agent := "edison", project := "demo", patternType := "refactor"
    context := [("file_type", "python")], outcome := "refactor worked", confidence := 0
    tags := [], hashId := "y" }

/-- Witness for C8 at a concrete one-event bucket. -/
theorem generatePatternInsight_invariants_witness :
    0 ≤ (generatePatternInsight id "refactor_file_type" [egC8]).successRate ∧
    (generatePatternInsight id "refactor_file_type" [egC8]).successRate ≤ 1 ∧
    (generatePatternInsight id "refactor_file_type" [egC8]).frequency =
      ([egC8] : List LearningEntry).length ∧
    (generatePatternInsight id "refactor_file_type" [egC8]).frequency =
      (generatePatternInsight id "refactor_file_type" [egC8]).contexts.length :=
  generatePatternInsight_invariants id "refactor_file_type" [egC8] (by simp)

/-! ### Claim C10 -/

/-- Concrete event for the underscore-truncation conjunct of C10: its
category `bug_fix` itself contains an underscore. -/
def egC10 : LearningEntry :=
  { timestamp := 0, agent := "sherlock", project := "demo", patternType := "bug_fix"
    context := [], outcome := "fixed", confidence := 0, tags := [], hashId := "w" }

/-- Claim C10: the generated insight's `pattern_type` is
`signature.split('_')[0]`, the text of the grouping signature before its
first underscore; since the signature starts with the events' category
followed by an underscore, it equals the category exactly when the
category contains no underscore — for category `bug_fix` the insight's
`pattern_type` is `bug`. -/
theorem generatePatternInsight_pattern_type_truncation :
    ∀ (h : String → String) (e : LearningEntry) (entries : List LearningEntry),
      ((generatePatternInsight h (createPatternSignature e) entries).patternType =
        String.mk (e.patternType.data.takeWhile (· ≠ '_'))) ∧
      ((generatePatternInsight h (createPatternSignature e) entries).patternType =
          e.patternType ↔ '_' ∉ e.patternType.data) ∧
      ((generatePatternInsight h (createPatternSignature egC10) [egC10]).patternType = "bug" ∧
        egC10.patternType = "bug_fix") := by
  intro h e entries
  have hu : ("_" : String).data = ['_'] := rfl
  have hdata : (createPatternSignature e).data =
      e.patternType.data ++ '_' ::
        (String.intercalate "_" ((sortedStrings (e.context.map Prod.fst)).take 3)).data := by
    show (e.patternType ++ "_" ++ _).data = _
    rw [String.data_append, String.data_append, hu]
    simp
  have hpt : (generatePatternInsight h (createPatternSignature e) entries).patternType =
      String.mk (e.patternType.data.takeWhile (· ≠ '_')) := by
    show String.mk ((createPatternSignature e).data.takeWhile _) = _
    rw [hdata, takeWhile_append_stop (by decide)]
  refine ⟨hpt, ?_, rfl, rfl⟩
  rw [hpt]
  constructor
  · intro hmk hmem
    have hdq : e.patternType.data.takeWhile (fun c => decide (c ≠ '_')) =
        e.patternType.data := congrArg String.data hmk
    have h2 := List.takeWhile_eq_self_iff.mp hdq '_' hmem
    simp at h2
  · intro hnot
    have hself : e.patternType.data.takeWhile (fun c => decide (c ≠ '_')) =
        e.patternType.data := by
      refine List.takeWhile_eq_self_iff.mpr (fun x hx => ?_)
      simp only [decide_eq_true_eq]
      rintro rfl
      exact hnot hx
    show String.mk (e.patternType.data.takeWhile (fun c => decide (c ≠ '_'))) = _
    rw [hself]

/-! ### Claim C4 -/

/-- Event constructor for the C4 scenario: only the hash id matters to
the upload count. -/
def mkEntryC4 (hid : String) : LearningEntry :=
  { timestamp := 0, agent := "a", project := "p", patternType := "t"
    context := [], outcome := "", confidence := 0, tags := [], hashId := hid }

/-- Local store of the C4 scenario: 5 unique events. -/
def pC4 : List LearningEntry :=
  [mkEntryC4 "h1", mkEntryC4 "h2", mkEntryC4 "h3", mkEntryC4 "h4", mkEntryC4 "h5"]

/-- Global store of the C4 scenario: already contains 2 of the local
events by id. -/
def gC4 : List LearningEntry :=
  [mkEntryC4 "h2", mkEntryC4 "h4"]

/-- Claim C4: `sync_with_global` reports `uploaded` equal to the number of
local events whose hash id is absent from the global id set; the 5-local/
2-already-global scenario uploads 3; and sync is idempotent — a second
sync against the just-extended global store uploads 0. -/
theorem syncWithGlobal_upload_idempotent :
    ∀ (p g : List LearningEntry) (pi pi' : List (String × GlobalInsight)),
      ((syncWithGlobal p g pi).2.2.uploaded =
        p.countP (fun e => decide (e.hashId ∉ g.map (·.hashId)))) ∧
      ((syncWithGlobal p (syncWithGlobal p g pi).1 pi').2.2.uploaded = 0) ∧
      ((syncWithGlobal pC4 gC4 []).2.2.uploaded = 3) := by
  intro p g pi pi'
  refine ⟨?_, ?_, rfl⟩
  · show (newEntriesOf p g).length = _
    rw [List.countP_eq_length_filter]
    unfold newEntriesOf
    congr 1
    apply List.filter_congr
    intro e _
    by_cases hm : e.hashId ∈ g.map (·.hashId)
    · simp [hm, (contains_hashId_iff g e.hashId).mpr hm]
    · have hcf : ((g.map (·.hashId)).contains e.hashId) = false := by
        cases hval : ((g.map (·.hashId)).contains e.hashId) with
        | true => exact absurd ((contains_hashId_iff g e.hashId).mp hval) hm
        | false => rfl
      simp [hm, hcf]
  · show (newEntriesOf p (mergedGlobal p g)).length = 0
    have hnil : newEntriesOf p (mergedGlobal p g) = [] := by
      unfold newEntriesOf
      rw [List.filter_eq_nil_iff]
      intro e he
      have hmem : e.hashId ∈ (mergedGlobal p g).map (·.hashId) := by
        unfold mergedGlobal
        rw [List.map_append, List.mem_append]
        by_cases hm : e.hashId ∈ g.map (·.hashId)
        · exact Or.inl hm
        · have hcf : ((g.map (·.hashId)).contains e.hashId) = false := by
            cases hval : ((g.map (·.hashId)).contains e.hashId) with
            | true => exact absurd ((contains_hashId_iff g e.hashId).mp hval) hm
            | false => rfl
          have henew : e ∈ newEntriesOf p g := by
            unfold newEntriesOf
            exact List.mem_filter.mpr ⟨he, by rw [hcf]; rfl⟩
          exact Or.inr (List.mem_map_of_mem (·.hashId) henew)
      have hct := (contains_hashId_iff (mergedGlobal p g) e.hashId).mpr hmem
      rw [hct]
      simp
    rw [hnil]
    rfl

/-! ### Claim C2 -/

/-- Membership in the pre-sort qualifying list is exactly membership of a
bucket clearing both thresholds. -/
theorem qualifyingInsights_mem (h : String → String) (now : Int) (db : List LearningEntry)
    (agent patternType : Option String) (daysBack : Int) (i : PatternInsight) :
    i ∈ qualifyingInsights h now db agent patternType daysBack ↔
      ∃ g ∈ groupByKey createPatternSignature
          (filteredEvents now db agent patternType daysBack),
        minPatternFrequency ≤ g.2.length ∧
        i = generatePatternInsight h g.1 g.2 ∧
        minConfidenceThreshold ≤ i.successRate := by
  unfold qualifyingInsights
  rw [List.mem_filterMap]
  constructor
  · rintro ⟨g, hg, hfg⟩
    by_cases h1 : minPatternFrequency ≤ g.2.length
    · rw [if_pos h1] at hfg
      by_cases h2 : minConfidenceThreshold ≤ (generatePatternInsight h g.1 g.2).successRate
      · rw [if_pos h2] at hfg
        obtain rfl := Option.some.inj hfg
        exact ⟨g, hg, h1, rfl, h2⟩
      · rw [if_neg h2] at hfg
        exact absurd hfg (by simp)
    · rw [if_neg h1] at hfg
      exact absurd hfg (by simp)
  · rintro ⟨g, hg, h1, rfl, h2⟩
    exact ⟨g, hg, by rw [if_pos h1, if_pos h2]⟩

/-- Claim C2: `analyze_patterns` returns exactly the insights of buckets with
at least `min_pattern_frequency` (3) events whose success rate is at
least `min_confidence_threshold` (0.7) — as a multiset (`Perm`) and as a
membership characterization — sorted descending by
`(frequency, success_rate)` with frequency primary; the result of
repeated calls on fixed input is identical (the model is a pure
function), and no insight with success rate 1/2 appears in the output. -/
theorem analyzePatterns_spec :
    ∀ (h : String → String) (now : Int) (db : List LearningEntry)
      (agent patternType : Option String) (daysBack : Int),
      (∀ i : PatternInsight,
        i ∈ analyzePatterns h now db agent patternType daysBack ↔
          ∃ g ∈ groupByKey createPatternSignature
              (filteredEvents now db agent patternType daysBack),
            minPatternFrequency ≤ g.2.length ∧
            i = generatePatternInsight h g.1 g.2 ∧
            minConfidenceThreshold ≤ i.successRate) ∧
      (analyzePatterns h now db agent patternType daysBack).Perm
        (qualifyingInsights h now db agent patternType daysBack) ∧
      List.Sorted insGE (analyzePatterns h now db agent patternType daysBack) ∧
      analyzePatterns h now db agent patternType daysBack =
        analyzePatterns h now db agent patternType daysBack ∧
      (analyzePatterns h now db agent patternType daysBack).countP
        (fun i => decide (i.successRate = 1/2)) = 0 := by
  intro h now db agent patternType daysBack
  have hperm := List.perm_insertionSort insGE
    (qualifyingInsights h now db agent patternType daysBack)
  have hmem : ∀ i : PatternInsight,
      i ∈ analyzePatterns h now db agent patternType daysBack ↔
        i ∈ qualifyingInsights h now db agent patternType daysBack :=
    fun i => hperm.mem_iff
  refine ⟨?_, hperm, List.sorted_insertionSort insGE _, rfl, ?_⟩
  · intro i
    rw [hmem i, qualifyingInsights_mem]
  · rw [List.countP_eq_zero]
    intro a ha
    obtain ⟨g, -, -, rfl, h2⟩ :=
      (qualifyingInsights_mem h now db agent patternType daysBack _).mp ((hmem _).mp ha)
    simp only [decide_eq_true_eq]
    intro heq
    rw [heq] at h2
    norm_num [minConfidenceThreshold] at h2

/-! ### Claim C5 -/

/-- Claim C5: during sync, global candidate insights are produced only for
category+agent groups containing at least 5 events (the candidate's
frequency is the group size), and a global insight is imported into the
local index iff its success rate is strictly greater than 0.8 AND it
spans strictly more than 2 distinct projects. -/
theorem globalInsight_thresholds :
    ∀ (p g : List LearningEntry) (kv : String × GlobalInsight),
      (kv ∈ analyzeGlobalPatterns (mergedGlobal p g) → 5 ≤ kv.2.frequency) ∧
      (kv ∈ relevantGlobalInsights p g ↔
        kv ∈ analyzeGlobalPatterns (mergedGlobal p g) ∧
          (4 : ℚ)/5 < kv.2.successRate ∧ 2 < kv.2.projects.length) := by
  intro p g kv
  constructor
  · intro hmem
    obtain ⟨grp, -, hf⟩ := List.mem_filterMap.mp hmem
    by_cases h5 : 5 ≤ grp.2.length
    · rw [if_pos h5] at hf
      obtain rfl := Option.some.inj hf
      exact h5
    · rw [if_neg h5] at hf
      exact absurd hf (by simp)
  · unfold relevantGlobalInsights
    rw [List.mem_filter]
    simp [isInsightRelevant, and_assoc]

/-- Event constructor for the C5 witness: confident events of the same
category and agent spread over a given project. -/
def egC5 (proj : String) : LearningEntry :=
  { timestamp := 0, agent := "sherlock", project := proj, patternType := "bug"
    context := [], outcome := "done", confidence := 1, tags := [], hashId := "z" }

/-- Global store for the C5 witness: 5 events in one category+agent
group spanning 3 distinct projects, all with confidence above 0.7. -/
def gC5 : List LearningEntry :=
  [egC5 "p1", egC5 "p2", egC5 "p3", egC5 "p1", egC5 "p2"]

/-- The single global candidate insight computed from `gC5`. -/
def kvC5 : String × GlobalInsight :=
  (analyzeGlobalPatterns (mergedGlobal [] gC5)).headD
    ("", { frequency := 0, projects := [], successRate := 0 })

/-- Witness for C5: the concrete candidate from `gC5` has frequency at
least 5 and passes the relevance filter. -/
theorem globalInsight_thresholds_witness :
    (kvC5 ∈ analyzeGlobalPatterns (mergedGlobal [] gC5) ∧ 5 ≤ kvC5.2.frequency) ∧
    kvC5 ∈ relevantGlobalInsights [] gC5 := by
  have hA : analyzeGlobalPatterns (mergedGlobal [] gC5) = [kvC5] := rfl
  have hmem : kvC5 ∈ analyzeGlobalPatterns (mergedGlobal [] gC5) := by
    rw [hA]
    exact List.mem_singleton.mpr rfl
  refine ⟨⟨hmem, (globalInsight_thresholds [] gC5 kvC5).1 hmem⟩, ?_⟩
  refine ((globalInsight_thresholds [] gC5 kvC5).2).mpr ⟨hmem, ?_, ?_⟩
  · have hgrp : kvC5.2.successRate =
        ((gC5.filter (fun e => decide ((7 : ℚ)/10 < e.confidence))).length : ℚ) /
          ((gC5.length : ℕ) : ℚ) := rfl
    have hfil : gC5.filter (fun e => decide ((7 : ℚ)/10 < e.confidence)) = gC5 := by
      rw [List.filter_eq_self]
      intro a ha
      have hconf : a.confidence = 1 := by
        simp only [gC5, List.mem_cons, List.not_mem_nil, or_false] at ha
        rcases ha with rfl | rfl | rfl | rfl | rfl <;> rfl
      rw [hconf]
      simp only [decide_eq_true_eq]
      norm_num
    have hlen : gC5.length = 5 := rfl
    rw [hgrp, hfil, hlen]
    norm_num
  · have hproj : kvC5.2.projects.length = 3 := rfl
    rw [hproj]
    norm_num

/-! ### Claim C6 -/

/-- When the recommendation loop returns normally, it returns exactly
the concatenation described by the spec. -/
theorem collectRecommendations_eq (context : List (String × String)) :
    ∀ (l : List PatternInsight) (recs : List String),
      collectRecommendations context l = some recs →
      recs = specMatchedRecommendations context l := by
  intro l
  induction l with
  | nil =>
    intro recs hc
    simp only [collectRecommendations, Option.some.injEq] at hc
    simp [specMatchedRecommendations, ← hc]
  | cons i rest ih =>
    intro recs hc
    cases hm : contextMatchesPattern context i.contexts with
    | none =>
      simp only [collectRecommendations, hm] at hc
      exact absurd hc (by simp)
    | some b =>
      cases b with
      | true =>
        simp only [collectRecommendations, hm] at hc
        obtain ⟨rs, hrs, hrec⟩ := Option.map_eq_some'.mp hc
        rw [← hrec, ih rs hrs]
        simp [specMatchedRecommendations, List.filter_cons, hm]
      | false =>
        simp only [collectRecommendations, hm] at hc
        rw [ih recs hc]
        simp [specMatchedRecommendations, List.filter_cons, hm]

/-- Claim C6: whenever `get_recommendations` returns normally, the result has
at most 5 entries, contains no duplicates, and equals the ranked-order
concatenation of matching insights' recommendations, deduplicated
keeping first occurrences, then truncated to 5. -/
theorem getRecommendations_spec :
    ∀ (h : String → String) (now : Int) (db : List LearningEntry) (agent : String)
      (context : List (String × String)) (res : List String),
      getRecommendations h now db agent context = some res →
        res.length ≤ 5 ∧ res.Nodup ∧
        res = (dedupFirst (specMatchedRecommendations context
          (analyzePatterns h now db (some agent) none 30))).take 5 := by
  intro h now db agent context res hres
  unfold getRecommendations at hres
  obtain ⟨recs, hrecs, hmap⟩ := Option.map_eq_some'.mp hres
  have hspec := collectRecommendations_eq context _ recs hrecs
  refine ⟨?_, ?_, by rw [← hmap, hspec]⟩
  · rw [← hmap]
    exact List.length_take_le 5 (dedupFirst recs)
  · rw [← hmap]
    exact (List.take_sublist 5 (dedupFirst recs)).nodup (dedupFirst_nodup recs)

/-- Witness for C6 at the empty store, where the call returns normally
with the empty list. -/
theorem getRecommendations_spec_witness :
    ([] : List String).length ≤ 5 ∧ ([] : List String).Nodup ∧
    ([] : List String) = (dedupFirst (specMatchedRecommendations []
      (analyzePatterns id 0 [] (some "sherlock") none 30))).take 5 :=
  getRecommendations_spec id 0 [] "sherlock" [] [] rfl

end PairedLearning
